import Mathlib

/-!
# `pkg/restful/http.go`: the generic JSON-over-HTTP request helper

The file embeds `Request[T]` and its five wrappers (`Get`, `Post`, `Put`,
`Patch`, `Delete`) from `src/pkg/restful/http.go`.

`Request` is effectful: it calls the JSON codec (`sonic.Marshal`,
`sonic.Unmarshal`), `http.NewRequest`, the shared client (`defClient.Do`) and
`io.ReadAll`.  The embedding passes those library entry points explicitly, as
the fields of an `Env`, and makes the effects observable through a trace of
`Call`s recorded in the order in which the source performs them.

Go `string` and `[]byte` values are both modelled by `String`; the `%s` verb of
`fmt` prints either one as the same text.  The parts of `net/http` and
`net/textproto` that the behaviour of `Request` depends on (`NewRequest`,
`Header.Set`, `CanonicalMIMEHeaderKey`) are modelled after the Go standard
library.
-/

set_option autoImplicit false

namespace Restful

/-! ## Methods (http.go, lines 17-25) -/

/-- The type alias `type HttpMethod = string`. -/
abbrev HttpMethod := String

def MethodGet : HttpMethod := "GET"
def MethodPost : HttpMethod := "POST"
def MethodPut : HttpMethod := "PUT"
def MethodPatch : HttpMethod := "PATCH"
def MethodDelete : HttpMethod := "DELETE"

/-! ## Errors -/

/-- A non-nil Go `error` value as `Request` can return it: either the error
value some library call returned (passed through unchanged), or the
`*errors.errorString` built by `fmt.Errorf` from a format without `%w`. -/
inductive GoError (ε : Type) where
  | lib (e : ε)
  | errorString (msg : String)
  deriving DecidableEq, Repr

/-! ## `net/textproto`: header keys -/

/-- The token characters of RFC 7230, by character code: digits, letters and
``!#$%&'*+-.^_`|~``.  This is the table behind both `validHeaderFieldByte`
(textproto) and `httpguts.IsTokenRune` (used by `validMethod`). -/
def isTokenCode (n : Nat) : Bool :=
  (48 ≤ n && n ≤ 57) || (65 ≤ n && n ≤ 90) || (97 ≤ n && n ≤ 122) ||
  [33, 35, 36, 37, 38, 39, 42, 43, 45, 46, 94, 95, 96, 124, 126].contains n

/-- The function `validHeaderFieldByte` of textproto. -/
def validHeaderFieldByte (c : Char) : Bool := isTokenCode c.toNat

/-- The canonicalising loop of `canonicalMIMEHeaderKey`: the first letter and
every letter after a dash is made upper case, every other letter lower case. -/
def canonLoop : Bool → List Char → List Char
  | _, [] => []
  | upper, c :: cs =>
    let c1 := if upper && c.isLower then c.toUpper
              else if !upper && c.isUpper then c.toLower else c
    c1 :: canonLoop (c1 == '-') cs

/-- The function `textproto.CanonicalMIMEHeaderKey`: a key containing a byte
that is not a token character (a space included) is returned unchanged, any
other key is canonicalised. -/
def CanonicalMIMEHeaderKey (s : String) : String :=
  if s.data.all validHeaderFieldByte then String.mk (canonLoop true s.data) else s

/-- ASCII lower-casing of a key, the normal form of case-insensitive
comparison of header names. -/
def lowerKey (s : String) : String := String.mk (s.data.map Char.toLower)

/-- Case-insensitive equality of two header names. -/
def equalFold (a b : String) : Prop := lowerKey a = lowerKey b

instance (a b : String) : Decidable (equalFold a b) := by
  unfold equalFold; infer_instance

/-! ## `net/http`: headers and requests -/

/-- The type `http.Header`, a `map[string][]string`, as an association list
with at most one entry per key. -/
structure Header where
  entries : List (String × List String)
  deriving DecidableEq, Repr

/-- The map index `h[name]`: no canonicalisation. -/
def Header.lookup (h : Header) (name : String) : Option (List String) :=
  (h.entries.find? (fun e => e.1 == name)).map Prod.snd

/-- The method `Header.Set`: `h[CanonicalMIMEHeaderKey(key)] = []string{value}`. -/
def Header.Set (h : Header) (key value : String) : Header :=
  ⟨(CanonicalMIMEHeaderKey key, [value]) ::
    h.entries.filter (fun e => e.1 != CanonicalMIMEHeaderKey key)⟩

/-- The method `Header.Values`: the values stored under the canonical form of
`key`, `none` when the header is absent. -/
def Header.Values (h : Header) (key : String) : Option (List String) :=
  h.lookup (CanonicalMIMEHeaderKey key)

/-- The fields of `*http.Request` that `Request` determines.  `Body` is the
content the request body yields, `none` for a request without body. -/
structure HttpRequest (U : Type) where
  Method : String
  URL : U
  Header : Header
  Body : Option String
  deriving DecidableEq, Repr

/-- The fields of `*http.Response` that `Request` reads.  `Body` is what
`io.ReadAll(resp.Body)` returns: the bytes, or a read error. -/
structure HttpResponse (ε : Type) where
  StatusCode : Int
  Status : String
  Body : Except ε String

/-- The library calls `Request` makes, as recorded in its trace. -/
inductive Call (α U : Type) where
  /-- The call `sonic.Marshal(v)`. -/
  | marshal (v : α)
  /-- The call `http.NewRequest(method, url, bodyReader)`. -/
  | newRequest (method url : String) (body : Option String)
  /-- The call `defClient.Do(request)`. -/
  | clientDo (req : HttpRequest U)
  /-- The call `io.ReadAll(resp.Body)`. -/
  | readAll
  /-- The call `sonic.Unmarshal(data, result)`. -/
  | unmarshal (data : String)
  /-- The deferred `resp.Body.Close()`. -/
  | bodyClose
  deriving DecidableEq, Repr

/-- The library entry points `Request` depends on.  `α` is the type of body
arguments (Go `any`), `T` the result type parameter, `U` the type of parsed
URLs and `ε` the type of library error values. -/
structure Env (α T U ε : Type) where
  /-- The function `sonic.Marshal`. -/
  marshal : α → Except ε String
  /-- The function `sonic.Unmarshal(data, ptr)`: given the value `ptr` points
  to, the value it points to afterwards and the returned error. -/
  unmarshal : String → T → T × Option ε
  /-- The zero value of `T`, with which `new(T)` is initialised. -/
  zero : T
  /-- The function `url.Parse`, followed by the port normalisation of
  `NewRequest`. -/
  parseURL : String → Except ε U
  /-- The `%q` verb of `fmt`, `strconv.Quote`. -/
  quote : String → String
  /-- The method `Do` of the shared client `defClient`. -/
  clientDo : HttpRequest U → Except ε (HttpResponse ε)

/-- The function `validMethod` of net/http: non-empty and made of token
characters only. -/
def validMethod (method : String) : Bool :=
  decide (method.length > 0) && method.data.all (fun c => isTokenCode c.toNat)

/-- The function `http.NewRequest` (`NewRequestWithContext` with the background
context): an empty method means GET, the method is validated, the URL parsed,
and the request starts with an empty header. -/
def NewRequest {α T U ε : Type} (env : Env α T U ε) (method url : String)
    (body : Option String) : Except (GoError ε) (HttpRequest U) :=
  let method := if method = "" then "GET" else method
  if !validMethod method then
    .error (.errorString ("net/http: invalid method " ++ env.quote method))
  else
    match env.parseURL url with
    | .error e => .error (.lib e)
    | .ok u => .ok { Method := method, URL := u, Header := ⟨[]⟩, Body := body }

/-- The statement `request.Header.Set(key, value)`. -/
def HttpRequest.setHeader {U : Type} (r : HttpRequest U) (key value : String) :
    HttpRequest U :=
  { r with Header := r.Header.Set key value }

/-! ## `Request` (http.go, lines 67-126) -/

/-- What a call of `Request` returns, `(*T, error)`, with `none` for `nil`,
together with the library calls it made, in order. -/
structure Outcome (α T U ε : Type) where
  result : Option T
  err : Option (GoError ε)
  trace : List (Call α U)

/-- The verb `%d` of `fmt` at an `int`: decimal digits, with a leading minus
sign for a negative number. -/
def fmtD (n : Int) : String := Int.repr n

/-- The message of
`fmt.Errorf("code: %d ,status:%s,body:%s", resp.StatusCode, resp.Status, respBody)`. -/
def statusErrorMessage (code : Int) (status body : String) : String :=
  "code: " ++ fmtD code ++ " ,status:" ++ status ++ ",body:" ++ body

/-- The function `Request[T]`.  `header` is `none` for a nil map and otherwise
lists the entries of the map in the order in which `range` visits them;
`jsonBody` is the variadic argument. -/
def Request {α T U ε : Type} (env : Env α T U ε) (method : HttpMethod) (url : String)
    (header : Option (List (String × String))) (jsonBody : List α) : Outcome α T U ε :=
  -- lines 75-84
  let marshalled : Except ε (Option String) × List (Call α U) :=
    if method ≠ MethodGet ∧ method ≠ "" then
      match jsonBody with
      | v :: _ =>
        (match env.marshal v with
          | .error e => .error e
          | .ok body => .ok (some body), [Call.marshal v])
      | [] => (.ok none, [])
    else (.ok none, [])
  match marshalled with
  | (.error e, tr0) => ⟨none, some (.lib e), tr0⟩
  | (.ok bodyReader, tr0) =>
    -- lines 86-89
    let tr1 := tr0 ++ [Call.newRequest method url bodyReader]
    match NewRequest env method url bodyReader with
    | .error e => ⟨none, some e, tr1⟩
    | .ok request =>
      -- lines 91-93
      let request :=
        if method ≠ MethodGet ∧ method ≠ "" then
          request.setHeader "Content-Type" "application/json"
        else request
      -- lines 95-99
      let request :=
        match header with
        | none => request
        | some entries => entries.foldl (fun r kv => r.setHeader kv.1 kv.2) request
      -- lines 101-104
      let tr2 := tr1 ++ [Call.clientDo request]
      match env.clientDo request with
      | .error e => ⟨none, some (.lib e), tr2⟩
      | .ok resp =>
        -- lines 108-115
        if resp.StatusCode < 200 ∨ resp.StatusCode ≥ 300 then
          match resp.Body with
          | .error e => ⟨none, some (.lib e), tr2 ++ [Call.readAll, Call.bodyClose]⟩
          | .ok respBody =>
            ⟨none, some (.errorString (statusErrorMessage resp.StatusCode resp.Status respBody)),
              tr2 ++ [Call.readAll, Call.bodyClose]⟩
        else
          -- lines 117-125
          match resp.Body with
          | .error e => ⟨none, some (.lib e), tr2 ++ [Call.readAll, Call.bodyClose]⟩
          | .ok respBody =>
            let decoded := env.unmarshal respBody env.zero
            ⟨some decoded.1, decoded.2.map GoError.lib,
              tr2 ++ [Call.readAll, Call.unmarshal respBody, Call.bodyClose]⟩

/-! ## The wrappers (http.go, lines 47-65) -/

def Get {α T U ε : Type} (env : Env α T U ε) (url : String)
    (header : Option (List (String × String))) : Outcome α T U ε :=
  Request env MethodGet url header []

def Post {α T U ε : Type} (env : Env α T U ε) (url : String)
    (header : Option (List (String × String))) (jsonBody : List α) : Outcome α T U ε :=
  Request env MethodPost url header jsonBody

def Put {α T U ε : Type} (env : Env α T U ε) (url : String)
    (header : Option (List (String × String))) (jsonBody : List α) : Outcome α T U ε :=
  Request env MethodPut url header jsonBody

def Patch {α T U ε : Type} (env : Env α T U ε) (url : String)
    (header : Option (List (String × String))) (jsonBody : List α) : Outcome α T U ε :=
  Request env MethodPatch url header jsonBody

def Delete {α T U ε : Type} (env : Env α T U ε) (url : String)
    (header : Option (List (String × String))) (jsonBody : List α) : Outcome α T U ε :=
  Request env MethodDelete url header jsonBody

/-! ## The stages of `Request`

The same code as `Request`, cut at the calls of `http.NewRequest` and of
`defClient.Do`; `Request_eq_stages` states that the pieces compose to
`Request`. -/

/-- Lines 75-84: the outcome of the optional `sonic.Marshal` call and the
calls made so far. -/
def bodyReaderOf {α T U ε : Type} (env : Env α T U ε) (method : HttpMethod)
    (jsonBody : List α) : Except ε (Option String) × List (Call α U) :=
  if method ≠ MethodGet ∧ method ≠ "" then
    match jsonBody with
    | v :: _ =>
      (match env.marshal v with
        | .error e => .error e
        | .ok body => .ok (some body), [Call.marshal v])
    | [] => (.ok none, [])
  else (.ok none, [])

/-- Lines 91-99: the automatic `Content-Type`, then the caller's entries. -/
def withHeaders {U : Type} (method : HttpMethod) (header : Option (List (String × String)))
    (request : HttpRequest U) : HttpRequest U :=
  let request :=
    if method ≠ MethodGet ∧ method ≠ "" then
      request.setHeader "Content-Type" "application/json"
    else request
  match header with
  | none => request
  | some entries => entries.foldl (fun r kv => r.setHeader kv.1 kv.2) request

/-- Lines 106-125: what `Request` does with the response of the client. -/
def handleResponse {α T U ε : Type} (env : Env α T U ε) (resp : HttpResponse ε)
    (tr2 : List (Call α U)) : Outcome α T U ε :=
  if resp.StatusCode < 200 ∨ resp.StatusCode ≥ 300 then
    match resp.Body with
    | .error e => ⟨none, some (.lib e), tr2 ++ [Call.readAll, Call.bodyClose]⟩
    | .ok respBody =>
      ⟨none, some (.errorString (statusErrorMessage resp.StatusCode resp.Status respBody)),
        tr2 ++ [Call.readAll, Call.bodyClose]⟩
  else
    match resp.Body with
    | .error e => ⟨none, some (.lib e), tr2 ++ [Call.readAll, Call.bodyClose]⟩
    | .ok respBody =>
      let decoded := env.unmarshal respBody env.zero
      ⟨some decoded.1, decoded.2.map GoError.lib,
        tr2 ++ [Call.readAll, Call.unmarshal respBody, Call.bodyClose]⟩

/-- Lines 101-125: the call of the client and the handling of its outcome. -/
def sendRequest {α T U ε : Type} (env : Env α T U ε) (request : HttpRequest U)
    (tr1 : List (Call α U)) : Outcome α T U ε :=
  match env.clientDo request with
  | .error e => ⟨none, some (.lib e), tr1 ++ [Call.clientDo request]⟩
  | .ok resp => handleResponse env resp (tr1 ++ [Call.clientDo request])

/-! ## A concrete environment

A small instance of `Env` on which the theorems below are exercised: bodies are
integers (encoded as JSON numbers) or a channel (which no JSON encoder
supports), results are `User` records, and the client answers by URL. -/

/-- The result type of the example calls, `struct { Id int; Name string }`. -/
structure User where
  Id : Int
  Name : String
  deriving DecidableEq, Repr

/-- The body arguments of the example calls. -/
inductive ExampleBody where
  | number (n : Int)
  | channel
  deriving DecidableEq, Repr

/-- The encoder of the example: a number is its decimal text, a channel is
rejected. -/
def exampleMarshal : ExampleBody → Except String String
  | .number n => .ok (Int.repr n)
  | .channel => .error "json: unsupported type: chan int"

/-- The decoder of the example, on the three bodies the example server sends:
a well-formed user, and a user whose name has the wrong type, where the
decoder has stored the id before it fails. -/
def exampleUnmarshal (data : String) (u : User) : User × Option String :=
  if data = "\x7b\"id\":1,\"name\":\"a\"\x7d" then ({ Id := 1, Name := "a" }, none)
  else if data = "\x7b\"id\":7,\"name\":5\x7d" then
    ({ u with Id := 7 }, some "json: cannot unmarshal number into Go struct field User.name")
  else (u, some "json: syntax error")

/-- The example server, by URL. -/
def exampleClientDo (req : HttpRequest String) : Except String (HttpResponse String) :=
  if req.URL = "https://api.example.com/users/1" then
    .ok ⟨200, "200 OK", .ok "\x7b\"id\":1,\"name\":\"a\"\x7d"⟩
  else if req.URL = "https://api.example.com/users/2" then
    .ok ⟨404, "404 Not Found", .ok "\x7b\"error\":\"not found\"\x7d"⟩
  else if req.URL = "https://api.example.com/users/7" then
    .ok ⟨200, "200 OK", .ok "\x7b\"id\":7,\"name\":5\x7d"⟩
  else if req.URL = "https://api.example.com/status/299" then
    .ok ⟨299, "299 status code 299", .ok "\x7b\"id\":1,\"name\":\"a\"\x7d"⟩
  else if req.URL = "https://api.example.com/status/300" then
    .ok ⟨300, "300 Multiple Choices", .ok "[]"⟩
  else .error "dial tcp: lookup failed: no such host"

/-- The request a GET of `url` without caller headers hands to the client. -/
def exampleGetRequest (url : String) : HttpRequest String :=
  ⟨"GET", url, ⟨[]⟩, none⟩

/-- The example URL parser: a URL that starts with a colon has no scheme. -/
def exampleParseURL (url : String) : Except String String :=
  if url.data.head? = some ':' then .error "parse: missing protocol scheme" else .ok url

def exampleEnv : Env ExampleBody User String String where
  marshal := exampleMarshal
  unmarshal := exampleUnmarshal
  zero := { Id := 0, Name := "" }
  parseURL := exampleParseURL
  quote := fun s => "\"" ++ s ++ "\""
  clientDo := exampleClientDo

/-! ## Structure of a call -/

theorem Request_eq_stages {α T U ε : Type} (env : Env α T U ε) (method : HttpMethod)
    (url : String) (header : Option (List (String × String))) (jsonBody : List α) :
    Request env method url header jsonBody =
      match bodyReaderOf env method jsonBody with
      | (.error e, tr0) => ⟨none, some (.lib e), tr0⟩
      | (.ok bodyReader, tr0) =>
        match NewRequest env method url bodyReader with
        | .error e => ⟨none, some e, tr0 ++ [Call.newRequest method url bodyReader]⟩
        | .ok request =>
          sendRequest env (withHeaders method header request)
            (tr0 ++ [Call.newRequest method url bodyReader]) := by
  rfl

/-- Before `http.NewRequest` is called the trace holds `sonic.Marshal` calls only. -/
theorem bodyReaderOf_trace {α T U ε : Type} (env : Env α T U ε) (method : HttpMethod)
    (jsonBody : List α) (c : Call α U)
    (hc : c ∈ (bodyReaderOf env method jsonBody).2) : ∃ v, c = Call.marshal v := by
  unfold bodyReaderOf at hc
  split at hc
  · cases jsonBody with
    | nil => simp at hc
    | cons v rest => exact ⟨v, by simpa using hc⟩
  · simp at hc

/-- A request is handed to the client only after the body was serialised (if
at all) and the request built; the request is then the built one with the
headers applied, and the outcome of the call is that of `sendRequest`. -/
theorem sent_inv {α T U ε : Type} (env : Env α T U ε) (method : HttpMethod)
    (url : String) (header : Option (List (String × String))) (jsonBody : List α)
    (req : HttpRequest U)
    (hsent : Call.clientDo req ∈ (Request env method url header jsonBody).trace) :
    ∃ bodyReader tr0 request,
      bodyReaderOf env method jsonBody = (.ok bodyReader, tr0) ∧
      NewRequest env method url bodyReader = .ok request ∧
      req = withHeaders method header request ∧
      Request env method url header jsonBody =
        sendRequest env req (tr0 ++ [Call.newRequest method url bodyReader]) := by
  rw [Request_eq_stages] at hsent ⊢
  have htr := bodyReaderOf_trace env method jsonBody (Call.clientDo req)
  rcases hb : bodyReaderOf env method jsonBody with ⟨r, tr0⟩
  rw [hb] at hsent htr
  have hnot : Call.clientDo req ∉ tr0 := fun h => by
    obtain ⟨v, hv⟩ := htr h
    cases hv
  cases r with
  | error e => exact absurd hsent hnot
  | ok bodyReader =>
    simp only at hsent ⊢
    cases hn : NewRequest env method url bodyReader with
    | error e =>
      rw [hn] at hsent
      simp [hnot] at hsent
    | ok request =>
      rw [hn] at hsent
      have hreq : req = withHeaders method header request := by
        simp only [sendRequest] at hsent
        cases hd : env.clientDo (withHeaders method header request) with
        | error e =>
          rw [hd] at hsent
          simpa [hnot] using hsent
        | ok resp =>
          rw [hd] at hsent
          simp only [handleResponse] at hsent
          split at hsent <;> split at hsent <;> simpa [hnot] using hsent
      subst hreq
      exact ⟨bodyReader, tr0, request, rfl, hn, rfl, by simp only [hn]⟩

/-- The five ways a call of `Request` can end once the body argument is
dealt with (lines 86-125), each with the library outcomes that lead to it. -/
theorem buildAndSend_cases {α T U ε : Type} (env : Env α T U ε) (method : HttpMethod)
    (url : String) (header : Option (List (String × String)))
    (bodyReader : Option String) (tr0 : List (Call α U)) (o : Outcome α T U ε)
    (ho : o = match NewRequest env method url bodyReader with
      | .error e => ⟨none, some e, tr0 ++ [Call.newRequest method url bodyReader]⟩
      | .ok request =>
        sendRequest env (withHeaders method header request)
          (tr0 ++ [Call.newRequest method url bodyReader])) :
    (∃ bodyReader e, NewRequest env method url bodyReader = .error e ∧
        o.result = none ∧ o.err = some e) ∨
    (∃ req e, Call.clientDo req ∈ o.trace ∧ env.clientDo req = .error e ∧
        o.result = none ∧ o.err = some (.lib e)) ∨
    (∃ req resp e, Call.clientDo req ∈ o.trace ∧
        env.clientDo req = .ok resp ∧ resp.Body = .error e ∧
        o.result = none ∧ o.err = some (.lib e)) ∨
    (∃ req resp respBody, Call.clientDo req ∈ o.trace ∧
        env.clientDo req = .ok resp ∧ (resp.StatusCode < 200 ∨ 300 ≤ resp.StatusCode) ∧
        resp.Body = .ok respBody ∧ o.result = none ∧
        o.err = some (.errorString (statusErrorMessage resp.StatusCode resp.Status respBody))) ∨
    (∃ req resp respBody, Call.clientDo req ∈ o.trace ∧
        env.clientDo req = .ok resp ∧ (200 ≤ resp.StatusCode ∧ resp.StatusCode < 300) ∧
        resp.Body = .ok respBody ∧
        o.result = some (env.unmarshal respBody env.zero).1 ∧
        o.err = (env.unmarshal respBody env.zero).2.map GoError.lib) := by
  cases hn : NewRequest env method url bodyReader with
  | error e =>
    rw [hn] at ho
    exact Or.inl ⟨bodyReader, e, hn, by rw [ho], by rw [ho]⟩
  | ok request =>
    rw [hn] at ho
    simp only [sendRequest] at ho
    right
    cases hd : env.clientDo (withHeaders method header request) with
    | error e =>
      rw [hd] at ho
      exact Or.inl ⟨_, e, by rw [ho]; simp, hd, by rw [ho], by rw [ho]⟩
    | ok resp =>
      rw [hd] at ho
      simp only [handleResponse] at ho
      right
      by_cases hs : resp.StatusCode < 200 ∨ resp.StatusCode ≥ 300
      · rw [if_pos hs] at ho
        cases hb : resp.Body with
        | error e =>
          rw [hb] at ho
          exact Or.inl ⟨_, resp, e, by rw [ho]; simp, hd, hb, by rw [ho], by rw [ho]⟩
        | ok respBody =>
          rw [hb] at ho
          exact Or.inr (Or.inl ⟨_, resp, respBody, by rw [ho]; simp, hd, hs, hb,
            by rw [ho], by rw [ho]⟩)
      · rw [if_neg hs] at ho
        cases hb : resp.Body with
        | error e =>
          rw [hb] at ho
          exact Or.inl ⟨_, resp, e, by rw [ho]; simp, hd, hb, by rw [ho], by rw [ho]⟩
        | ok respBody =>
          rw [hb] at ho
          have hs2 : 200 ≤ resp.StatusCode ∧ resp.StatusCode < 300 := by
            constructor
            · exact not_lt.mp (fun h => hs (Or.inl h))
            · exact not_le.mp (fun h => hs (Or.inr h))
          exact Or.inr (Or.inr ⟨_, resp, respBody, by rw [ho]; simp, hd, hs2, hb,
            by rw [ho], by rw [ho]⟩)

/-- The six ways a call of `Request` can end, each with the library outcomes
that lead to it. -/
theorem Request_cases {α T U ε : Type} (env : Env α T U ε) (method : HttpMethod)
    (url : String) (header : Option (List (String × String))) (jsonBody : List α)
    (o : Outcome α T U ε) (ho : o = Request env method url header jsonBody) :
    (∃ v rest e, method ≠ MethodGet ∧ method ≠ "" ∧ jsonBody = v :: rest ∧
        env.marshal v = .error e ∧ o = ⟨none, some (.lib e), [Call.marshal v]⟩) ∨
    (∃ bodyReader e, NewRequest env method url bodyReader = .error e ∧
        o.result = none ∧ o.err = some e) ∨
    (∃ req e, Call.clientDo req ∈ o.trace ∧ env.clientDo req = .error e ∧
        o.result = none ∧ o.err = some (.lib e)) ∨
    (∃ req resp e, Call.clientDo req ∈ o.trace ∧
        env.clientDo req = .ok resp ∧ resp.Body = .error e ∧
        o.result = none ∧ o.err = some (.lib e)) ∨
    (∃ req resp respBody, Call.clientDo req ∈ o.trace ∧
        env.clientDo req = .ok resp ∧ (resp.StatusCode < 200 ∨ 300 ≤ resp.StatusCode) ∧
        resp.Body = .ok respBody ∧ o.result = none ∧
        o.err = some (.errorString (statusErrorMessage resp.StatusCode resp.Status respBody))) ∨
    (∃ req resp respBody, Call.clientDo req ∈ o.trace ∧
        env.clientDo req = .ok resp ∧ (200 ≤ resp.StatusCode ∧ resp.StatusCode < 300) ∧
        resp.Body = .ok respBody ∧
        o.result = some (env.unmarshal respBody env.zero).1 ∧
        o.err = (env.unmarshal respBody env.zero).2.map GoError.lib) := by
  rw [Request_eq_stages] at ho
  unfold bodyReaderOf at ho
  by_cases hm : method ≠ MethodGet ∧ method ≠ ""
  · rw [if_pos hm] at ho
    cases jsonBody with
    | nil => exact Or.inr (buildAndSend_cases env method url header none [] o ho)
    | cons v rest =>
      cases hv : env.marshal v with
      | error e =>
        simp only [hv] at ho
        exact Or.inl ⟨v, rest, e, hm.1, hm.2, rfl, hv, ho⟩
      | ok body =>
        simp only [hv] at ho
        exact Or.inr (buildAndSend_cases env method url header (some body) [Call.marshal v] o ho)
  · rw [if_neg hm] at ho
    exact Or.inr (buildAndSend_cases env method url header none [] o ho)

/-! ## The response side (claims C1, C2, C8, C10) -/

/-- C1: when the client answers the request with a status code outside
[200, 300) and the body is read without error, `Request` returns a nil result
and the error whose message is exactly
`code: <status code> ,status:<status text>,body:<body>`, and
`sonic.Unmarshal` is not called. -/
theorem status_error_embeds_response {α T U ε : Type} (env : Env α T U ε)
    (method : HttpMethod) (url : String) (header : Option (List (String × String)))
    (jsonBody : List α) (req : HttpRequest U) (resp : HttpResponse ε) (respBody : String)
    (hsent : Call.clientDo req ∈ (Request env method url header jsonBody).trace)
    (hresp : env.clientDo req = .ok resp)
    (hstatus : resp.StatusCode < 200 ∨ 300 ≤ resp.StatusCode)
    (hbody : resp.Body = .ok respBody) :
    (Request env method url header jsonBody).result = none ∧
    (Request env method url header jsonBody).err =
      some (.errorString ("code: " ++ fmtD resp.StatusCode ++ " ,status:" ++ resp.Status ++
        ",body:" ++ respBody)) ∧
    ∀ data, Call.unmarshal data ∉ (Request env method url header jsonBody).trace := by
  obtain ⟨bodyReader, tr0, request, hb, -, -, heq⟩ :=
    sent_inv env method url header jsonBody req hsent
  have htr := bodyReaderOf_trace env method jsonBody
  rw [hb] at htr
  have hs : resp.StatusCode < 200 ∨ resp.StatusCode ≥ 300 := hstatus
  have hout : Request env method url header jsonBody =
      ⟨none, some (.errorString (statusErrorMessage resp.StatusCode resp.Status respBody)),
        tr0 ++ [Call.newRequest method url bodyReader] ++ [Call.clientDo req] ++
          [Call.readAll, Call.bodyClose]⟩ := by
    rw [heq]
    simp only [sendRequest, hresp, handleResponse, if_pos hs, hbody]
  rw [hout]
  refine ⟨rfl, rfl, ?_⟩
  intro data hmem
  simp only [List.mem_append, List.mem_cons, List.mem_singleton, List.not_mem_nil,
    or_false] at hmem
  rcases hmem with ((h | h) | h) | h | h
  · obtain ⟨v, hv⟩ := htr _ h
    cases hv
  all_goals cases h

/-- C1, witness: the 404 answer of the example server, whose message contains
`404` and `not found`, and its answer with status 300, the first status code
above the accepted range. -/
theorem status_error_embeds_response_witness :
    ((Get exampleEnv "https://api.example.com/users/2" none).result = none ∧
     (Get exampleEnv "https://api.example.com/users/2" none).err =
      some (.errorString
        ("code: " ++ "404" ++ " ,status:404 Not Found,body:\x7b\"error\":\"" ++ "not found" ++
          "\"\x7d")) ∧
     (∀ data, Call.unmarshal data ∉
      (Get exampleEnv "https://api.example.com/users/2" none).trace)) ∧
    ((Get exampleEnv "https://api.example.com/status/300" none).result = none ∧
     (Get exampleEnv "https://api.example.com/status/300" none).err =
      some (.errorString "code: 300 ,status:300 Multiple Choices,body:[]") ∧
     (∀ data, Call.unmarshal data ∉
      (Get exampleEnv "https://api.example.com/status/300" none).trace)) :=
  ⟨status_error_embeds_response exampleEnv MethodGet "https://api.example.com/users/2"
      none [] (exampleGetRequest "https://api.example.com/users/2")
      ⟨404, "404 Not Found", .ok "\x7b\"error\":\"not found\"\x7d"⟩
      "\x7b\"error\":\"not found\"\x7d" (by decide) rfl (by decide) rfl,
   status_error_embeds_response exampleEnv MethodGet "https://api.example.com/status/300"
      none [] (exampleGetRequest "https://api.example.com/status/300")
      ⟨300, "300 Multiple Choices", .ok "[]"⟩ "[]" (by decide) rfl (by decide) rfl⟩

/-- C2: when the client answers the request with a status code in [200, 300),
the body is read without error and decodes without error, `Request` returns a
nil error and a non-nil result: the value `sonic.Unmarshal` produces from the
whole body, starting from the zero value of `T`. -/
theorem success_decodes_body {α T U ε : Type} (env : Env α T U ε)
    (method : HttpMethod) (url : String) (header : Option (List (String × String)))
    (jsonBody : List α) (req : HttpRequest U) (resp : HttpResponse ε) (respBody : String)
    (hsent : Call.clientDo req ∈ (Request env method url header jsonBody).trace)
    (hresp : env.clientDo req = .ok resp)
    (hstatus : 200 ≤ resp.StatusCode ∧ resp.StatusCode < 300)
    (hbody : resp.Body = .ok respBody)
    (hdec : (env.unmarshal respBody env.zero).2 = none) :
    (Request env method url header jsonBody).result =
      some (env.unmarshal respBody env.zero).1 ∧
    (Request env method url header jsonBody).err = none ∧
    Call.unmarshal respBody ∈ (Request env method url header jsonBody).trace := by
  obtain ⟨bodyReader, tr0, request, -, -, -, heq⟩ :=
    sent_inv env method url header jsonBody req hsent
  have hs : ¬ (resp.StatusCode < 200 ∨ resp.StatusCode ≥ 300) := by
    rintro (h | h)
    · exact absurd hstatus.1 (not_le.mpr h)
    · exact absurd hstatus.2 (not_lt.mpr h)
  have hout : Request env method url header jsonBody =
      ⟨some (env.unmarshal respBody env.zero).1, none,
        tr0 ++ [Call.newRequest method url bodyReader] ++ [Call.clientDo req] ++
          [Call.readAll, Call.unmarshal respBody, Call.bodyClose]⟩ := by
    rw [heq]
    simp only [sendRequest, hresp, handleResponse, if_neg hs, hbody, hdec, Option.map_none']
  rw [hout]
  exact ⟨rfl, rfl, by simp⟩

/-- C2, witness: `Get[User]` against the 200 answer of the example server, and
against its answer with status 299, the last status code of the accepted
range. -/
theorem success_decodes_body_witness :
    ((Get exampleEnv "https://api.example.com/users/1" none).result =
      some ({ Id := 1, Name := "a" } : User) ∧
     (Get exampleEnv "https://api.example.com/users/1" none).err = none ∧
     Call.unmarshal "\x7b\"id\":1,\"name\":\"a\"\x7d" ∈
      (Get exampleEnv "https://api.example.com/users/1" none).trace) ∧
    ((Get exampleEnv "https://api.example.com/status/299" none).result =
      some ({ Id := 1, Name := "a" } : User) ∧
     (Get exampleEnv "https://api.example.com/status/299" none).err = none ∧
     Call.unmarshal "\x7b\"id\":1,\"name\":\"a\"\x7d" ∈
      (Get exampleEnv "https://api.example.com/status/299" none).trace) :=
  ⟨success_decodes_body exampleEnv MethodGet "https://api.example.com/users/1"
      none [] (exampleGetRequest "https://api.example.com/users/1")
      ⟨200, "200 OK", .ok "\x7b\"id\":1,\"name\":\"a\"\x7d"⟩
      "\x7b\"id\":1,\"name\":\"a\"\x7d" (by decide) rfl (by decide) rfl (by decide),
   success_decodes_body exampleEnv MethodGet "https://api.example.com/status/299"
      none [] (exampleGetRequest "https://api.example.com/status/299")
      ⟨299, "299 status code 299", .ok "\x7b\"id\":1,\"name\":\"a\"\x7d"⟩
      "\x7b\"id\":1,\"name\":\"a\"\x7d" (by decide) rfl (by decide) rfl (by decide)⟩

/-- C8: when the client answers the request with a status code in [200, 300),
the body is read without error and `sonic.Unmarshal` fails on it, `Request`
returns the decoder's error unchanged together with a non-nil result, the value
the decoder left in the freshly allocated `T`; and this is the only way for
`Request` to return both a non-nil result and a non-nil error. -/
theorem decode_error_keeps_result {α T U ε : Type} (env : Env α T U ε)
    (method : HttpMethod) (url : String) (header : Option (List (String × String)))
    (jsonBody : List α) :
    (∀ (req : HttpRequest U) (resp : HttpResponse ε) (respBody : String) (e : ε),
      Call.clientDo req ∈ (Request env method url header jsonBody).trace →
      env.clientDo req = .ok resp →
      200 ≤ resp.StatusCode ∧ resp.StatusCode < 300 →
      resp.Body = .ok respBody →
      (env.unmarshal respBody env.zero).2 = some e →
      (Request env method url header jsonBody).result =
        some (env.unmarshal respBody env.zero).1 ∧
      (Request env method url header jsonBody).err = some (.lib e)) ∧
    (∀ (v : T) (e1 : GoError ε),
      (Request env method url header jsonBody).result = some v →
      (Request env method url header jsonBody).err = some e1 →
      ∃ (req : HttpRequest U) (resp : HttpResponse ε) (respBody : String) (e : ε),
        Call.clientDo req ∈ (Request env method url header jsonBody).trace ∧
        env.clientDo req = .ok resp ∧
        (200 ≤ resp.StatusCode ∧ resp.StatusCode < 300) ∧
        resp.Body = .ok respBody ∧
        env.unmarshal respBody env.zero = (v, some e) ∧ e1 = .lib e) := by
  constructor
  · intro req resp respBody e hsent hresp hstatus hbody hdec
    obtain ⟨bodyReader, tr0, request, -, -, -, heq⟩ :=
      sent_inv env method url header jsonBody req hsent
    have hs : ¬ (resp.StatusCode < 200 ∨ resp.StatusCode ≥ 300) := by
      rintro (h | h)
      · exact absurd hstatus.1 (not_le.mpr h)
      · exact absurd hstatus.2 (not_lt.mpr h)
    have hout : Request env method url header jsonBody =
        ⟨some (env.unmarshal respBody env.zero).1, some (.lib e),
          tr0 ++ [Call.newRequest method url bodyReader] ++ [Call.clientDo req] ++
            [Call.readAll, Call.unmarshal respBody, Call.bodyClose]⟩ := by
      rw [heq]
      simp only [sendRequest, hresp, handleResponse, if_neg hs, hbody, hdec, Option.map_some']
    rw [hout]
    exact ⟨rfl, rfl⟩
  · intro v e1 hres herr
    rcases Request_cases env method url header jsonBody _ rfl with
      ⟨_, _, _, _, _, _, _, h⟩ | ⟨_, _, _, h, _⟩ | ⟨_, _, _, _, h, _⟩ | ⟨_, _, _, _, _, _, h, _⟩ |
      ⟨_, _, _, _, _, _, _, h, _⟩ | ⟨req, resp, respBody, hsent, hresp, hstatus, hbody, hr, he⟩
    · rw [h] at hres
      cases hres
    · rw [h] at hres
      cases hres
    · rw [h] at hres
      cases hres
    · rw [h] at hres
      cases hres
    · rw [h] at hres
      cases hres
    · rw [hr] at hres
      rw [he] at herr
      cases hd : (env.unmarshal respBody env.zero).2 with
      | none =>
        rw [hd] at herr
        cases herr
      | some e =>
        rw [hd] at herr
        refine ⟨req, resp, respBody, e, hsent, hresp, hstatus, hbody, ?_, ?_⟩
        · exact Prod.ext (Option.some.inj hres) hd
        · exact (Option.some.inj herr).symm

/-- C8, witness: the example server sends a user whose name has the wrong
type; the result is the partially filled user, not nil and not the zero value,
and the error is the decoder's. -/
theorem decode_error_keeps_result_witness :
    (Get exampleEnv "https://api.example.com/users/7" none).result =
      some ({ Id := 7, Name := "" } : User) ∧
    (Get exampleEnv "https://api.example.com/users/7" none).err =
      some (.lib "json: cannot unmarshal number into Go struct field User.name") :=
  (decode_error_keeps_result exampleEnv MethodGet "https://api.example.com/users/7"
      none []).1 ⟨"GET", "https://api.example.com/users/7", ⟨[]⟩, none⟩
      ⟨200, "200 OK", .ok "\x7b\"id\":7,\"name\":5\x7d"⟩
      "\x7b\"id\":7,\"name\":5\x7d"
      "json: cannot unmarshal number into Go struct field User.name"
      (by decide) rfl (by decide) rfl (by decide)

/-- C10: `Request` never returns a nil result together with a nil error.  When
the error is nil, the result is non-nil, the status was in [200, 300) and the
body decoded without error.  When the result is nil, the error is non-nil and
is a serialization, request construction, transport, body read or HTTP status
error. -/
theorem result_or_error {α T U ε : Type} (env : Env α T U ε)
    (method : HttpMethod) (url : String) (header : Option (List (String × String)))
    (jsonBody : List α) :
    ((Request env method url header jsonBody).result ≠ none ∨
      (Request env method url header jsonBody).err ≠ none) ∧
    ((Request env method url header jsonBody).err = none →
      ∃ (req : HttpRequest U) (resp : HttpResponse ε) (respBody : String),
        Call.clientDo req ∈ (Request env method url header jsonBody).trace ∧
        env.clientDo req = .ok resp ∧
        (200 ≤ resp.StatusCode ∧ resp.StatusCode < 300) ∧
        resp.Body = .ok respBody ∧
        (env.unmarshal respBody env.zero).2 = none ∧
        (Request env method url header jsonBody).result =
          some (env.unmarshal respBody env.zero).1) ∧
    ((Request env method url header jsonBody).result = none →
      ∃ e1 : GoError ε, (Request env method url header jsonBody).err = some e1 ∧
        ((∃ v rest e, jsonBody = v :: rest ∧ env.marshal v = .error e ∧ e1 = .lib e) ∨
         (∃ bodyReader, NewRequest env method url bodyReader = .error e1) ∨
         (∃ req e, Call.clientDo req ∈ (Request env method url header jsonBody).trace ∧
            env.clientDo req = .error e ∧ e1 = .lib e) ∨
         (∃ req resp e, Call.clientDo req ∈ (Request env method url header jsonBody).trace ∧
            env.clientDo req = .ok resp ∧ resp.Body = .error e ∧ e1 = .lib e) ∨
         (∃ req resp respBody,
            Call.clientDo req ∈ (Request env method url header jsonBody).trace ∧
            env.clientDo req = .ok resp ∧
            (resp.StatusCode < 200 ∨ 300 ≤ resp.StatusCode) ∧ resp.Body = .ok respBody ∧
            e1 = .errorString (statusErrorMessage resp.StatusCode resp.Status respBody)))) := by
  rcases Request_cases env method url header jsonBody _ rfl with
    ⟨v, rest, e, _, _, hj, hv, h⟩ | ⟨b, e, hn, hr, he⟩ | ⟨req, e, hs, hd, hr, he⟩ |
    ⟨req, resp, e, hs, hd, hb, hr, he⟩ | ⟨req, resp, respBody, hs, hd, hst, hb, hr, he⟩ |
    ⟨req, resp, respBody, hs, hd, hst, hb, hr, he⟩
  · have he : (Request env method url header jsonBody).err = some (.lib e) := by rw [h]
    refine ⟨Or.inr (by rw [he]; simp), fun h0 => ?_, fun _ => ?_⟩
    · rw [he] at h0
      cases h0
    · exact ⟨_, he, Or.inl ⟨v, rest, e, hj, hv, rfl⟩⟩
  · refine ⟨Or.inr (by rw [he]; simp), fun h0 => ?_, fun _ => ?_⟩
    · rw [he] at h0
      cases h0
    · exact ⟨_, he, Or.inr (Or.inl ⟨b, hn⟩)⟩
  · refine ⟨Or.inr (by rw [he]; simp), fun h0 => ?_, fun _ => ?_⟩
    · rw [he] at h0
      cases h0
    · exact ⟨_, he, Or.inr (Or.inr (Or.inl ⟨req, e, hs, hd, rfl⟩))⟩
  · refine ⟨Or.inr (by rw [he]; simp), fun h0 => ?_, fun _ => ?_⟩
    · rw [he] at h0
      cases h0
    · exact ⟨_, he, Or.inr (Or.inr (Or.inr (Or.inl ⟨req, resp, e, hs, hd, hb, rfl⟩)))⟩
  · refine ⟨Or.inr (by rw [he]; simp), fun h0 => ?_, fun _ => ?_⟩
    · rw [he] at h0
      cases h0
    · exact ⟨_, he, Or.inr (Or.inr (Or.inr (Or.inr ⟨req, resp, respBody, hs, hd, hst, hb, rfl⟩)))⟩
  · refine ⟨Or.inl (by rw [hr]; simp), fun h0 => ?_, fun h0 => ?_⟩
    · rw [he] at h0
      refine ⟨req, resp, respBody, hs, hd, hst, hb, ?_, hr⟩
      cases hdec : (env.unmarshal respBody env.zero).2 with
      | none => rfl
      | some e =>
        rw [hdec] at h0
        cases h0
    · rw [hr] at h0
      cases h0

/-- C10, witness: the three kinds of outcome on the example server: a result
without error, an error without result, and a result together with an error. -/
theorem result_or_error_witness :
    ((Get exampleEnv "https://api.example.com/users/1" none).result ≠ none ∨
      (Get exampleEnv "https://api.example.com/users/1" none).err ≠ none) ∧
    ((Get exampleEnv "https://api.example.com/users/2" none).result ≠ none ∨
      (Get exampleEnv "https://api.example.com/users/2" none).err ≠ none) ∧
    ((Get exampleEnv "https://api.example.com/users/7" none).result ≠ none ∨
      (Get exampleEnv "https://api.example.com/users/7" none).err ≠ none) :=
  ⟨(result_or_error exampleEnv MethodGet "https://api.example.com/users/1" none []).1,
   (result_or_error exampleEnv MethodGet "https://api.example.com/users/2" none []).1,
   (result_or_error exampleEnv MethodGet "https://api.example.com/users/7" none []).1⟩

/-! ## Header keys -/

/-- Case analysis on an upper-case ASCII letter. -/
theorem upper_cases (P : Char → Prop) (h : ∀ n, 65 ≤ n → n ≤ 90 → P (Char.ofNat n))
    (c : Char) (hc : c.isUpper = true) : P c := by
  have hn := h c.toNat
  rw [Char.ofNat_toNat] at hn
  simp only [Char.isUpper, Bool.and_eq_true, decide_eq_true_eq] at hc
  exact hn hc.1 hc.2

theorem upper_facts (c : Char) (hc : c.isUpper = true) :
    c.toLower.toUpper = c ∧ c.toLower.isLower = true ∧ c.toLower.isUpper = false ∧
    c.isLower = false ∧ c.toLower.toLower = c.toLower ∧
    validHeaderFieldByte c = true ∧ validHeaderFieldByte c.toLower = true := by
  revert c
  apply upper_cases
  intro n h1 h2
  interval_cases n <;> decide

/-- Case analysis on a lower-case ASCII letter. -/
theorem lower_cases (P : Char → Prop) (h : ∀ n, 97 ≤ n → n ≤ 122 → P (Char.ofNat n))
    (c : Char) (hc : c.isLower = true) : P c := by
  have hn := h c.toNat
  rw [Char.ofNat_toNat] at hn
  simp only [Char.isLower, Bool.and_eq_true, decide_eq_true_eq] at hc
  exact hn hc.1 hc.2

theorem lower_facts (c : Char) (hc : c.isLower = true) :
    c.toUpper.toLower = c ∧ c.toLower = c := by
  revert c
  apply lower_cases
  intro n h1 h2
  interval_cases n <;> decide

theorem toLower_of_not_upper (c : Char) (hc : c.isUpper = false) : c.toLower = c := by
  have h : ¬ (c.val ≥ 65 ∧ c.val ≤ 90) := by
    simpa [Char.isUpper] using hc
  unfold Char.toLower
  exact if_neg h

theorem toLower_idem (c : Char) : c.toLower.toLower = c.toLower := by
  cases hc : c.isUpper with
  | true => exact (upper_facts c hc).2.2.2.2.1
  | false => rw [toLower_of_not_upper c hc, toLower_of_not_upper c hc]

theorem valid_toLower (c : Char) : validHeaderFieldByte c.toLower = validHeaderFieldByte c := by
  cases hc : c.isUpper with
  | true => rw [(upper_facts c hc).2.2.2.2.2.1, (upper_facts c hc).2.2.2.2.2.2]
  | false => rw [toLower_of_not_upper c hc]

/-- The canonical form of a key depends on its lower-cased form only. -/
theorem canonLoop_map_toLower (upper : Bool) (l : List Char) :
    canonLoop upper (l.map Char.toLower) = canonLoop upper l := by
  induction l generalizing upper with
  | nil => rfl
  | cons c cs ih =>
    simp only [List.map_cons, canonLoop]
    cases hc : c.isUpper with
    | false => simp [toLower_of_not_upper c hc, ih]
    | true =>
      obtain ⟨h1, h2, h3, h4, -, -, -⟩ := upper_facts c hc
      cases upper <;> simp [h1, h2, h3, h4, ih]

/-- Lower-casing undoes canonicalisation. -/
theorem map_toLower_canonLoop (upper : Bool) (l : List Char) :
    (canonLoop upper l).map Char.toLower = l.map Char.toLower := by
  induction l generalizing upper with
  | nil => rfl
  | cons c cs ih =>
    simp only [List.map_cons, canonLoop, ih]
    congr 1
    split
    · rename_i h
      simp only [Bool.and_eq_true] at h
      rw [(lower_facts c h.2).1, (lower_facts c h.2).2]
    · split
      · exact toLower_idem c
      · rfl

theorem all_valid_map_toLower (l : List Char) :
    (l.map Char.toLower).all validHeaderFieldByte = l.all validHeaderFieldByte := by
  induction l with
  | nil => rfl
  | cons c cs ih => simp only [List.map_cons, List.all_cons, ih, valid_toLower]

/-- A key is canonicalised to `Content-Type` exactly when it equals
`Content-Type` up to letter case. -/
theorem canonical_contentType_iff (k : String) :
    CanonicalMIMEHeaderKey k = "Content-Type" ↔ equalFold k "Content-Type" := by
  unfold equalFold lowerKey
  constructor
  · intro h
    unfold CanonicalMIMEHeaderKey at h
    split at h
    · have hd : canonLoop true k.data = "Content-Type".data := by rw [← h]
      rw [← map_toLower_canonLoop true k.data, hd]
    · rw [h]
  · intro h
    have hd : k.data.map Char.toLower = "content-type".data := by
      have := congrArg String.data h
      simpa using this
    have hv : k.data.all validHeaderFieldByte = true := by
      rw [← all_valid_map_toLower, hd]
      decide
    unfold CanonicalMIMEHeaderKey
    rw [if_pos hv, ← canonLoop_map_toLower, hd]
    decide

/-! ## Headers -/

theorem lookup_Set_same (h : Header) (key value : String) :
    (h.Set key value).lookup (CanonicalMIMEHeaderKey key) = some [value] := by
  simp [Header.Set, Header.lookup]

theorem lookup_Set_other (h : Header) (key value name : String)
    (hne : CanonicalMIMEHeaderKey key ≠ name) :
    (h.Set key value).lookup name = h.lookup name := by
  cases h with
  | mk entries =>
    simp only [Header.Set, Header.lookup]
    rw [List.find?_cons_of_neg _ (by simpa using hne)]
    congr 1
    induction entries with
    | nil => rfl
    | cons e es ih =>
      by_cases he : e.1 = name
      · have h1 : e.1 ≠ CanonicalMIMEHeaderKey key := by
          rw [he]
          exact fun h => hne h.symm
        have h2 : name ≠ CanonicalMIMEHeaderKey key := fun h => hne h.symm
        simp [List.filter_cons, h1, h2, he]
      · by_cases h1 : e.1 = CanonicalMIMEHeaderKey key
        · simpa [List.filter_cons, List.find?_cons, h1, hne] using ih
        · simpa [List.filter_cons, List.find?_cons, h1, he] using ih

/-- A request that `http.NewRequest` returns has the body it was given and an
empty header. -/
theorem NewRequest_ok {α T U ε : Type} (env : Env α T U ε) (method url : String)
    (body : Option String) (request : HttpRequest U)
    (h : NewRequest env method url body = .ok request) :
    request.Body = body ∧ request.Header = ⟨[]⟩ ∧
    request.Method = (if method = "" then "GET" else method) := by
  unfold NewRequest at h
  simp only at h
  by_cases hv : validMethod (if method = "" then "GET" else method) = true
  · simp only [hv, Bool.not_true, Bool.false_eq_true, if_false] at h
    cases hp : env.parseURL url with
    | error e =>
      rw [hp] at h
      cases h
    | ok u =>
      rw [hp] at h
      cases h
      exact ⟨rfl, rfl, rfl⟩
  · simp only [hv, Bool.not_false, if_true] at h
    cases h

/-- Applying the caller's entries (the loop of lines 96-98) leaves the body alone. -/
theorem foldl_setHeader_Body {U : Type} (entries : List (String × String))
    (r : HttpRequest U) :
    (entries.foldl (fun r kv => r.setHeader kv.1 kv.2) r).Body = r.Body := by
  induction entries generalizing r with
  | nil => rfl
  | cons e es ih => rw [List.foldl_cons, ih]; rfl

theorem withHeaders_Body {U : Type} (method : HttpMethod)
    (header : Option (List (String × String))) (r : HttpRequest U) :
    (withHeaders method header r).Body = r.Body := by
  unfold withHeaders
  cases header with
  | none => simp only; split <;> rfl
  | some entries =>
    simp only [foldl_setHeader_Body]
    split <;> rfl

/-- A header none of the caller's keys names is left as it was. -/
theorem foldl_setHeader_lookup_other {U : Type} (entries : List (String × String))
    (name : String) (hno : ∀ e ∈ entries, CanonicalMIMEHeaderKey e.1 ≠ name)
    (r : HttpRequest U) :
    (entries.foldl (fun r kv => r.setHeader kv.1 kv.2) r).Header.lookup name =
      r.Header.lookup name := by
  induction entries generalizing r with
  | nil => rfl
  | cons e es ih =>
    rw [List.foldl_cons, ih (fun e1 h1 => hno e1 (List.mem_cons_of_mem _ h1))]
    exact lookup_Set_other _ _ _ _ (hno e (List.mem_cons_self _ _))

/-- A header some caller key names ends with the single value of one of the
entries whose key has that canonical form. -/
theorem foldl_setHeader_lookup_mem {U : Type} (entries : List (String × String))
    (name : String) (hex : ∃ e ∈ entries, CanonicalMIMEHeaderKey e.1 = name)
    (r : HttpRequest U) :
    ∃ e ∈ entries, CanonicalMIMEHeaderKey e.1 = name ∧
      (entries.foldl (fun r kv => r.setHeader kv.1 kv.2) r).Header.lookup name =
        some [e.2] := by
  induction entries using List.reverseRecOn with
  | nil =>
    obtain ⟨e, he, -⟩ := hex
    cases he
  | append_singleton es last ih =>
    rw [List.foldl_append, List.foldl_cons, List.foldl_nil]
    by_cases hl : CanonicalMIMEHeaderKey last.1 = name
    · refine ⟨last, by simp, hl, ?_⟩
      rw [← hl]
      exact lookup_Set_same _ _ _
    · have hex1 : ∃ e ∈ es, CanonicalMIMEHeaderKey e.1 = name := by
        obtain ⟨e, he, hk⟩ := hex
        rcases List.mem_append.mp he with h | h
        · exact ⟨e, h, hk⟩
        · rw [List.mem_singleton] at h
          rw [h] at hk
          exact absurd hk hl
      obtain ⟨e, he, hk, hv⟩ := ih hex1
      refine ⟨e, List.mem_append_left _ he, hk, ?_⟩
      rw [← hv]
      exact lookup_Set_other _ _ _ _ hl

/-- The calls `Request` makes from `defClient.Do` on: the call of the client,
then only body reads, the decoder and the deferred close. -/
theorem sendRequest_trace {α T U ε : Type} (env : Env α T U ε) (request : HttpRequest U)
    (tr1 : List (Call α U)) :
    ∃ rest, (sendRequest env request tr1).trace = tr1 ++ Call.clientDo request :: rest ∧
      ∀ c ∈ rest, c = Call.readAll ∨ (∃ d, c = Call.unmarshal d) ∨ c = Call.bodyClose := by
  unfold sendRequest
  cases env.clientDo request with
  | error e => exact ⟨[], by simp, by simp⟩
  | ok resp =>
    simp only [handleResponse]
    split <;> split
    · exact ⟨[Call.readAll, Call.bodyClose], by simp, by simp⟩
    · exact ⟨[Call.readAll, Call.bodyClose], by simp, by simp⟩
    · exact ⟨[Call.readAll, Call.bodyClose], by simp, by simp⟩
    · rename_i respBody _
      exact ⟨[Call.readAll, Call.unmarshal respBody, Call.bodyClose], by simp, by simp⟩

/-! ## The request side (claims C3, C4, C5, C6, C7, C9) -/

/-- C3 (amended): for every method other than GET and the empty string, when
the first body argument serializes successfully, `http.NewRequest` is called
with the JSON encoding of that argument as body, and the request handed to the
client has exactly that encoding as its body. -/
theorem body_is_encoding {α T U ε : Type} (env : Env α T U ε)
    (method : HttpMethod) (url : String) (header : Option (List (String × String)))
    (v : α) (rest : List α) (body : String) (req : HttpRequest U)
    (hget : method ≠ MethodGet) (hempty : method ≠ "")
    (hm : env.marshal v = .ok body)
    (hsent : Call.clientDo req ∈ (Request env method url header (v :: rest)).trace) :
    req.Body = some body ∧
    Call.newRequest method url (some body) ∈
      (Request env method url header (v :: rest)).trace := by
  obtain ⟨bodyReader, tr0, request, hb, hn, hreq, heq⟩ :=
    sent_inv env method url header (v :: rest) req hsent
  have hb1 : bodyReaderOf env method (v :: rest) = (.ok (some body), [Call.marshal v]) := by
    simp only [bodyReaderOf, hm, if_pos (And.intro hget hempty)]
  rw [hb1] at hb
  cases hb
  constructor
  · rw [hreq, withHeaders_Body, (NewRequest_ok env method url _ request hn).1]
  · rw [heq]
    obtain ⟨more, htr, -⟩ := sendRequest_trace env req
      ([Call.marshal v] ++ [Call.newRequest method url (some body)])
    rw [htr]
    simp

/-- C3, witness: a POST of the number 5 to the example server. -/
theorem body_is_encoding_witness :
    (⟨"POST", "https://api.example.com/users/1",
        ⟨[("Content-Type", ["application/json"])]⟩, some "5"⟩ : HttpRequest String).Body =
      some "5" ∧
    Call.newRequest "POST" "https://api.example.com/users/1" (some "5") ∈
      (Request exampleEnv "POST" "https://api.example.com/users/1" none
        [ExampleBody.number 5]).trace :=
  body_is_encoding exampleEnv "POST" "https://api.example.com/users/1" none
    (ExampleBody.number 5) [] "5"
    ⟨"POST", "https://api.example.com/users/1",
      ⟨[("Content-Type", ["application/json"])]⟩, some "5"⟩
    (by decide) (by decide) rfl (by decide)

/-- C3, counterexample: the empty string is a method other than GET, the body
argument serializes to `5`, and the request handed to the client has no body. -/
theorem body_is_encoding_counterexample :
    ("" : HttpMethod) ≠ MethodGet ∧
    exampleEnv.marshal (ExampleBody.number 5) = .ok "5" ∧
    Call.clientDo ⟨"GET", "https://api.example.com/users/1", ⟨[]⟩, none⟩ ∈
      (Request exampleEnv "" "https://api.example.com/users/1" none
        [ExampleBody.number 5]).trace ∧
    (⟨"GET", "https://api.example.com/users/1", ⟨[]⟩, none⟩ : HttpRequest String).Body ≠
      some "5" :=
  ⟨by decide, rfl, by decide, by decide⟩

/-- C7 (amended): for every method other than GET and the empty string, when
serializing the first body argument fails, `Request` returns a nil result and
the serializer's error, and `sonic.Marshal` is the only call it has made: no
request is built and the client is not invoked, whatever the URL. -/
theorem marshal_error_returned {α T U ε : Type} (env : Env α T U ε)
    (method : HttpMethod) (url : String) (header : Option (List (String × String)))
    (v : α) (rest : List α) (e : ε)
    (hget : method ≠ MethodGet) (hempty : method ≠ "")
    (hm : env.marshal v = .error e) :
    (Request env method url header (v :: rest)).result = none ∧
    (Request env method url header (v :: rest)).err = some (.lib e) ∧
    (Request env method url header (v :: rest)).trace = [Call.marshal v] := by
  have hb1 : bodyReaderOf env method (v :: rest) = (.error e, [Call.marshal v]) := by
    simp only [bodyReaderOf, hm, if_pos (And.intro hget hempty)]
  rw [Request_eq_stages, hb1]
  exact ⟨rfl, rfl, rfl⟩

/-- C7, witness: a POST of a channel to a URL that does not parse. -/
theorem marshal_error_returned_witness :
    (Post exampleEnv ":bad" none [ExampleBody.channel] :
        Outcome ExampleBody User String String).result = none ∧
    (Post exampleEnv ":bad" none [ExampleBody.channel]).err =
      some (.lib "json: unsupported type: chan int") ∧
    (Post exampleEnv ":bad" none [ExampleBody.channel]).trace =
      [Call.marshal ExampleBody.channel] :=
  marshal_error_returned exampleEnv "POST" ":bad" none ExampleBody.channel []
    "json: unsupported type: chan int" (by decide) (by decide) rfl

/-- C7, counterexample: with the empty string as method, a body argument whose
serialization fails is not serialized; the request is sent and the call
succeeds. -/
theorem marshal_error_returned_counterexample :
    ("" : HttpMethod) ≠ MethodGet ∧
    exampleEnv.marshal ExampleBody.channel = .error "json: unsupported type: chan int" ∧
    Call.clientDo ⟨"GET", "https://api.example.com/users/1", ⟨[]⟩, none⟩ ∈
      (Request exampleEnv "" "https://api.example.com/users/1" none
        [ExampleBody.channel]).trace ∧
    (Request exampleEnv "" "https://api.example.com/users/1" none
        [ExampleBody.channel]).result = some ({ Id := 1, Name := "a" } : User) ∧
    (Request exampleEnv "" "https://api.example.com/users/1" none
        [ExampleBody.channel]).err = none :=
  ⟨by decide, rfl, by decide, by decide, by decide⟩

/-- C9: each wrapper is `Request` with its method fixed and the other
arguments forwarded unchanged; `Get` forwards no body argument. -/
theorem wrappers_forward {α T U ε : Type} (env : Env α T U ε) (url : String)
    (header : Option (List (String × String))) (jsonBody : List α) :
    Get env url header = Request env "GET" url header [] ∧
    Post env url header jsonBody = Request env "POST" url header jsonBody ∧
    Put env url header jsonBody = Request env "PUT" url header jsonBody ∧
    Patch env url header jsonBody = Request env "PATCH" url header jsonBody ∧
    Delete env url header jsonBody = Request env "DELETE" url header jsonBody :=
  ⟨rfl, rfl, rfl, rfl, rfl⟩

/-- C4: for method GET, whatever body arguments are passed, `sonic.Marshal` is
never called, the first call is `http.NewRequest("GET", url, nil)`, a request
handed to the client has no body, and the outcome does not depend on the
serializer at all, so that no serialization error can be returned. -/
theorem get_never_marshals {α T U ε : Type} (env : Env α T U ε) (url : String)
    (header : Option (List (String × String))) (jsonBody : List α) :
    (∀ v, Call.marshal v ∉ (Request env "GET" url header jsonBody).trace) ∧
    (Request env "GET" url header jsonBody).trace.head? =
      some (Call.newRequest "GET" url none) ∧
    (∀ req, Call.clientDo req ∈ (Request env "GET" url header jsonBody).trace →
      req.Body = none) ∧
    (∀ m : α → Except ε String,
      Request { env with marshal := m } "GET" url header jsonBody =
        Request env "GET" url header jsonBody) := by
  have hb : bodyReaderOf env "GET" jsonBody = ((.ok none, []) : _ × List (Call α U)) := by
    simp [bodyReaderOf, MethodGet]
  refine ⟨?_, ?_, ?_, ?_⟩
  · intro v
    rw [Request_eq_stages, hb]
    simp only
    cases NewRequest env "GET" url none with
    | error e => simp
    | ok request =>
      simp only
      obtain ⟨more, htr, hmore⟩ := sendRequest_trace env (withHeaders "GET" header request)
        ([] ++ [Call.newRequest "GET" url none])
      rw [htr]
      intro hmem
      simp only [List.nil_append, List.cons_append, List.mem_cons, List.mem_nil_iff,
        false_or] at hmem
      rcases hmem with h | h | h
      · cases h
      · cases h
      · rcases hmore _ h with h1 | ⟨d, h1⟩ | h1 <;> cases h1
  · rw [Request_eq_stages, hb]
    simp only
    cases NewRequest env "GET" url none with
    | error e => rfl
    | ok request =>
      simp only
      obtain ⟨more, htr, -⟩ := sendRequest_trace env (withHeaders "GET" header request)
        ([] ++ [Call.newRequest "GET" url none])
      rw [htr]
      rfl
  · intro req hsent
    obtain ⟨bodyReader, tr0, request, hb0, hn, hreq, -⟩ :=
      sent_inv env "GET" url header jsonBody req hsent
    rw [hb] at hb0
    cases hb0
    rw [hreq, withHeaders_Body, (NewRequest_ok env "GET" url _ request hn).1]
  · intro m
    unfold Request
    simp only [MethodGet, ne_eq, not_true_eq_false, false_and, if_false]
    rfl

/-- C4, witness: a GET with a channel as body argument, which cannot be
serialized, goes through on the example server. -/
theorem get_never_marshals_witness :
    (Request exampleEnv "GET" "https://api.example.com/users/1" none
      [ExampleBody.channel]).trace.head? =
      some (Call.newRequest "GET" "https://api.example.com/users/1" none) ∧
    (Request exampleEnv "GET" "https://api.example.com/users/1" none
      [ExampleBody.channel]).err = none :=
  ⟨(get_never_marshals exampleEnv "https://api.example.com/users/1" none
      [ExampleBody.channel]).2.1, by decide⟩

/-- C5 (amended): when the caller's header mapping is nil or has no key equal
to `Content-Type` up to letter case, the request handed to the client carries
`Content-Type` with the single value `application/json` for every method other
than GET and the empty string, and no `Content-Type` for method GET. -/
theorem contentType_default {α T U ε : Type} (env : Env α T U ε)
    (method : HttpMethod) (url : String) (header : Option (List (String × String)))
    (jsonBody : List α) (req : HttpRequest U)
    (hkeys : ∀ entries, header = some entries →
      ∀ e ∈ entries, ¬ equalFold e.1 "Content-Type")
    (hsent : Call.clientDo req ∈ (Request env method url header jsonBody).trace) :
    (method ≠ MethodGet → method ≠ "" →
      req.Header.lookup "Content-Type" = some ["application/json"]) ∧
    (method = MethodGet → req.Header.lookup "Content-Type" = none) := by
  obtain ⟨bodyReader, tr0, request, -, hn, hreq, -⟩ :=
    sent_inv env method url header jsonBody req hsent
  have hh := (NewRequest_ok env method url _ request hn).2.1
  have hcanon : CanonicalMIMEHeaderKey "Content-Type" = "Content-Type" := by decide
  -- the caller's entries leave `Content-Type` alone
  have hkeep : ∀ r : HttpRequest U,
      (match header with
        | none => r
        | some entries =>
          entries.foldl (fun (r : HttpRequest U) (kv : String × String) =>
            r.setHeader kv.1 kv.2) r).Header.lookup
          "Content-Type" = r.Header.lookup "Content-Type" := by
    intro r
    cases header with
    | none => rfl
    | some entries =>
      exact foldl_setHeader_lookup_other entries "Content-Type"
        (fun e he hc => hkeys entries rfl e he ((canonical_contentType_iff e.1).mp hc)) r
  constructor
  · intro hget hempty
    rw [hreq]
    unfold withHeaders
    simp only [if_pos (And.intro hget hempty)]
    rw [hkeep]
    have := lookup_Set_same request.Header "Content-Type" "application/json"
    rw [hcanon] at this
    exact this
  · intro hget
    rw [hreq]
    unfold withHeaders
    have hcond : ¬ (method ≠ MethodGet ∧ method ≠ "") := fun h => h.1 hget
    simp only [if_neg hcond]
    rw [hkeep, hh]
    rfl

/-- C5, witness: a DELETE and a GET without body and with an `accept` header,
on the example server. -/
theorem contentType_default_witness :
    (Call.clientDo ⟨"DELETE", "https://api.example.com/users/1",
        ⟨[("Accept", ["*/*"]), ("Content-Type", ["application/json"])]⟩, none⟩ ∈
      (Request exampleEnv "DELETE" "https://api.example.com/users/1"
        (some [("accept", "*/*")]) ([] : List ExampleBody)).trace ∧
     (⟨"DELETE", "https://api.example.com/users/1",
        ⟨[("Accept", ["*/*"]), ("Content-Type", ["application/json"])]⟩, none⟩ :
        HttpRequest String).Header.lookup "Content-Type" = some ["application/json"]) ∧
    (Call.clientDo ⟨"GET", "https://api.example.com/users/1",
        ⟨[("Accept", ["*/*"])]⟩, none⟩ ∈
      (Request exampleEnv "GET" "https://api.example.com/users/1"
        (some [("accept", "*/*")]) ([] : List ExampleBody)).trace ∧
     (⟨"GET", "https://api.example.com/users/1", ⟨[("Accept", ["*/*"])]⟩, none⟩ :
        HttpRequest String).Header.lookup "Content-Type" = none) :=
  ⟨⟨by decide,
    (contentType_default exampleEnv "DELETE" "https://api.example.com/users/1"
      (some [("accept", "*/*")]) ([] : List ExampleBody)
      ⟨"DELETE", "https://api.example.com/users/1",
        ⟨[("Accept", ["*/*"]), ("Content-Type", ["application/json"])]⟩, none⟩
      (by
        intro entries h e he
        cases h
        rw [List.mem_singleton] at he
        subst he
        decide)
      (by decide)).1 (by decide) (by decide)⟩,
   ⟨by decide,
    (contentType_default exampleEnv "GET" "https://api.example.com/users/1"
      (some [("accept", "*/*")]) ([] : List ExampleBody)
      ⟨"GET", "https://api.example.com/users/1", ⟨[("Accept", ["*/*"])]⟩, none⟩
      (by
        intro entries h e he
        cases h
        rw [List.mem_singleton] at he
        subst he
        decide)
      (by decide)).2 rfl⟩⟩

/-- C5, counterexample: the empty string is a method other than GET, the header
mapping is nil, and the request handed to the client has no `Content-Type`. -/
theorem contentType_default_counterexample :
    ("" : HttpMethod) ≠ MethodGet ∧
    Call.clientDo ⟨"GET", "https://api.example.com/users/1", ⟨[]⟩, none⟩ ∈
      (Request exampleEnv "" "https://api.example.com/users/1" none
        ([] : List ExampleBody)).trace ∧
    (⟨"GET", "https://api.example.com/users/1", ⟨[]⟩, none⟩ :
      HttpRequest String).Header.lookup "Content-Type" = none :=
  ⟨by decide, by decide, by decide⟩

/-- C6 (amended): every entry `(k, v)` of the caller's header mapping is applied
to the request after the automatic `Content-Type`.  In the request handed to
the client the header named `k` (after canonicalisation) has a single value,
the value of an entry of the mapping whose key has the same canonical form as
`k`; it is `v` unless another entry of the mapping has a key with the same
canonical form and a different value.  In particular, when `k` equals
`Content-Type` up to letter case, the `Content-Type` of the request is the
value of a caller entry, not the automatic one. -/
theorem caller_headers_applied {α T U ε : Type} (env : Env α T U ε)
    (method : HttpMethod) (url : String) (entries : List (String × String))
    (jsonBody : List α) (req : HttpRequest U) (k v : String)
    (hsent : Call.clientDo req ∈ (Request env method url (some entries) jsonBody).trace)
    (hk : (k, v) ∈ entries) :
    (∃ k1 w, (k1, w) ∈ entries ∧
      CanonicalMIMEHeaderKey k1 = CanonicalMIMEHeaderKey k ∧
      req.Header.Values k = some [w]) ∧
    ((∀ e ∈ entries, CanonicalMIMEHeaderKey e.1 = CanonicalMIMEHeaderKey k → e.2 = v) →
      req.Header.Values k = some [v]) ∧
    (equalFold k "Content-Type" →
      ∃ k1 w, (k1, w) ∈ entries ∧ equalFold k1 "Content-Type" ∧
        req.Header.lookup "Content-Type" = some [w]) := by
  obtain ⟨bodyReader, tr0, request, -, -, hreq, -⟩ :=
    sent_inv env method url (some entries) jsonBody req hsent
  have hlast : ∃ e ∈ entries, CanonicalMIMEHeaderKey e.1 = CanonicalMIMEHeaderKey k ∧
      req.Header.Values k = some [e.2] := by
    rw [hreq]
    unfold withHeaders Header.Values
    exact foldl_setHeader_lookup_mem entries (CanonicalMIMEHeaderKey k) ⟨(k, v), hk, rfl⟩ _
  obtain ⟨e, he, hek, hev⟩ := hlast
  refine ⟨⟨e.1, e.2, he, hek, hev⟩, fun huniq => ?_, fun hfold => ?_⟩
  · rw [hev, huniq e he hek]
  · have hc := (canonical_contentType_iff k).mpr hfold
    refine ⟨e.1, e.2, he, (canonical_contentType_iff e.1).mp (hek.trans hc), ?_⟩
    unfold Header.Values at hev
    rw [hc] at hev
    exact hev

/-- C6, witness: a POST with a `content-type` and an `x-trace` entry on the
example server; the caller's value replaces the automatic `application/json`. -/
theorem caller_headers_applied_witness :
    Call.clientDo ⟨"POST", "https://api.example.com/users/1",
        ⟨[("X-Trace", ["7"]), ("Content-Type", ["text/plain"])]⟩, none⟩ ∈
      (Request exampleEnv "POST" "https://api.example.com/users/1"
        (some [("content-type", "text/plain"), ("x-trace", "7")])
        ([] : List ExampleBody)).trace ∧
    (⟨"POST", "https://api.example.com/users/1",
        ⟨[("X-Trace", ["7"]), ("Content-Type", ["text/plain"])]⟩, none⟩ :
        HttpRequest String).Header.Values "content-type" = some ["text/plain"] :=
  ⟨by decide,
   (caller_headers_applied exampleEnv "POST" "https://api.example.com/users/1"
      [("content-type", "text/plain"), ("x-trace", "7")] ([] : List ExampleBody)
      ⟨"POST", "https://api.example.com/users/1",
        ⟨[("X-Trace", ["7"]), ("Content-Type", ["text/plain"])]⟩, none⟩
      "content-type" "text/plain" (by decide) (by decide)).2.1 (by decide)⟩

/-- C6, counterexample: a header mapping with the two keys `content-type` and
`Content-Type`.  In whichever order `range` visits them, the request handed to
the client has, under the name of one of the two entries, the value of the
other. -/
theorem caller_headers_applied_counterexample :
    (Call.clientDo ⟨"POST", "https://api.example.com/users/1",
        ⟨[("Content-Type", ["text/xml"])]⟩, none⟩ ∈
      (Request exampleEnv "POST" "https://api.example.com/users/1"
        (some [("content-type", "text/plain"), ("Content-Type", "text/xml")])
        ([] : List ExampleBody)).trace ∧
     (⟨"POST", "https://api.example.com/users/1",
        ⟨[("Content-Type", ["text/xml"])]⟩, none⟩ :
        HttpRequest String).Header.Values "content-type" ≠ some ["text/plain"]) ∧
    (Call.clientDo ⟨"POST", "https://api.example.com/users/1",
        ⟨[("Content-Type", ["text/plain"])]⟩, none⟩ ∈
      (Request exampleEnv "POST" "https://api.example.com/users/1"
        (some [("Content-Type", "text/xml"), ("content-type", "text/plain")])
        ([] : List ExampleBody)).trace ∧
     (⟨"POST", "https://api.example.com/users/1",
        ⟨[("Content-Type", ["text/plain"])]⟩, none⟩ :
        HttpRequest String).Header.Values "Content-Type" ≠ some ["text/xml"]) :=
  ⟨⟨by decide, by decide⟩, ⟨by decide, by decide⟩⟩

end Restful
